import Mathlib

/-!
Verification development for the Uwatec Smart dive-computer driver and parser
(`divelog/dc/driver/uwatec_smart.py` and `divelog/dc/parser/uwatec_smart.py`).

The Python 2 source is shallowly embedded: byte buffers are `List Nat` (each
element a byte value `< 256`), machine integers are `Nat`/`Int` with explicit
wrap-around where the source packs/unpacks structs, and fallible code returns
`Except`.  Python quirks that matter are modelled exactly:

* `/` on Python 2 ints is floor division (`Nat.div` here);
* `list[i]` supports negative indices (`pyIndex` below);
* `list.remove` removes the first equal element while a `for` loop keeps an
  integer position into the (mutated) list (`clearAlarmsLoop` below);
* `struct.unpack('<l', struct.pack('<L', v))` reinterprets an unsigned 32-bit
  value as signed (`toSigned32` below).
-/

/-- Parse-level failures.  `invalidDti` is the `ParseError('Invalid DTI index')`
raised by `parse_profile`; `endOfData` is `ParseError('Unexpected end of data')`
raised by `process_dti`; `structErr` models the `struct.error` Python raises
when `unpack_from` is asked to read past the end of the buffer; `indexErr`
models the Python `IndexError` raised by an out-of-range list subscript;
`fuelOut` is unreachable for the inputs considered here (the source loop
advances its cursor by at least one byte per iteration). -/
inductive PErr where
  | invalidDti
  | endOfData
  | structErr
  | indexErr
  | fuelOut
deriving DecidableEq

/-- Model of `read_ushort` / `struct.unpack_from('<B', data, offset)`: the byte
at `offset`, or `none` (Python: `struct.error`) when the buffer is too short. -/
def read_ushort (data : List Nat) (offset : Nat) : Option Nat :=
  data[offset]?

/-- Inner loop of `smart_dti_identify` (`for j in range(8)` scanning one byte
most-significant bit first), re-indexed by the number `p = 8 - j` of bits not
yet examined, so the mask `1 << (7 - j)` is `1 <<< (p - 1)`: returns `some` of
the accumulated count at the first 0 bit, or `none` when all remaining bits
are 1. -/
def scanByteBits (byte nbits : Nat) : Nat → Option Nat
  | 0 => none
  | p + 1 =>
    if byte &&& (1 <<< p) = 0 then some nbits
    else scanByteBits byte (nbits + 1) p

/-- Outer loop of `smart_dti_identify` (`for i in range(16)`), carrying the
running bit count `nbits`; `pos = offset + i` is the byte being read and `r`
the number of loop iterations left (initially 16). -/
def dtiScanBytes (data : List Nat) (pos nbits : Nat) : Nat → Except PErr Int
  | 0 => .ok (-1)
  | r + 1 =>
    match read_ushort data pos with
    | none => .error .structErr
    | some byte =>
      match scanByteBits byte nbits 8 with
      | some n => .ok (n : Int)
      | none => dtiScanBytes data (pos + 1) (nbits + 8) r

/-- Model of `BaseSmartParser.smart_dti_identify`: count of leading 1 bits
(msb first) at `offset`, or the sentinel `-1` when no 0 bit occurs within the
first 16 bytes. -/
def smart_dti_identify (data : List Nat) (offset : Nat) : Except PErr Int :=
  dtiScanBytes data offset 0 16

/-- Model of `BaseSmartParser.smart_fix_signbit`.  In the source
`mask = (0xFFFFFFFF << nbits) & 0xFFFFFFFF` and the negative-branch result is
`value | mask`; the positive branch is `value & ~mask`, which clears the bits
of `mask` from `value` — written here as `value ^^^ (value &&& mask)`, which
clears exactly those bits (all inputs are non-negative Python ints). -/
def smart_fix_signbit (value nbits : Nat) : Nat :=
  if nbits = 0 ∨ nbits > 32 then 0
  else
    let sgnbit := 1 <<< (nbits - 1)
    let mask := (0xFFFFFFFF <<< nbits) &&& 0xFFFFFFFF
    if value &&& sgnbit = sgnbit then value ||| mask
    else value ^^^ (value &&& mask)

/-- Model of `struct.unpack('<l', struct.pack('<L', v))[0]`: reinterpret the
low 32 bits of an unsigned value as a signed 32-bit integer. -/
def toSigned32 (v : Nat) : Int :=
  if v % 2 ^ 32 < 2 ^ 31 then (v % 2 ^ 32 : Nat)
  else (v % 2 ^ 32 : Nat) - 2 ^ 32

/-- Field kind of a DTI table entry (the source compares the string field
`dti['name']`; the table only ever holds these four names). -/
inductive DtiKind where
  | depth
  | temp
  | time
  | alarms
deriving DecidableEq

/-- One entry of a `DTI_TABLE` (source: a Python dict with keys `name`, `abs`,
`idx`, `bits`, `ignore_type_bits`, `extra`). -/
structure Dti where
  name : DtiKind
  abs : Bool
  idx : Nat
  bits : Nat
  ignore_type_bits : Bool
  extra : Nat
deriving DecidableEq

/-- The `AladinTec2G.DTI_TABLE` from the source, in order. -/
def DTI_TABLE : List Dti :=
  [ ⟨.depth,  false, 0, 1, false, 0⟩,
    ⟨.temp,   false, 0, 2, false, 0⟩,
    ⟨.time,   true,  0, 3, false, 0⟩,
    ⟨.alarms, true,  0, 4, false, 0⟩,
    ⟨.depth,  false, 0, 5, false, 1⟩,
    ⟨.temp,   false, 0, 6, false, 1⟩,
    ⟨.depth,  true,  0, 7, true,  2⟩,
    ⟨.temp,   true,  0, 8, false, 2⟩,
    ⟨.alarms, true,  1, 9, false, 0⟩ ]

/-- Loop body of `process_dti` over the `extra` data bytes: shift the value
left by 8 and add the next byte, tracking the advancing cursor and bit count.
Returns `none` on a short read (unreachable: `process_dti` checks the length
before entering the loop). -/
def processExtra (data : List Nat) (cur_pos nbits value extra : Nat) :
    Option (Nat × Nat × Nat) :=
  match extra with
  | 0 => some (cur_pos, nbits, value)
  | e + 1 =>
    match read_ushort data cur_pos with
    | none => none
    | some b => processExtra data (cur_pos + 1) (nbits + 8) (value * 256 + b) e

/-- Model of `BaseSmartParser.process_dti`.  Python 2 floor division is used
for `dti['bits'] / 8`.  Returns the new cursor, the raw value and the
sign-extended value. -/
def process_dti (data : List Nat) (pos : Nat) (dti : Dti) :
    Except PErr (Nat × Nat × Int) :=
  let cur_pos := pos + dti.bits / 8
  let n := dti.bits % 8
  match (if n > 0 then
           match read_ushort data cur_pos with
           | none => .error .structErr
           | some byte =>
             if dti.ignore_type_bits then .ok (cur_pos + 1, 0, 0)
             else .ok (cur_pos + 1, 8 - n, (0xFF >>> n) &&& byte)
         else (.ok (cur_pos, 0, 0) : Except PErr (Nat × Nat × Nat))) with
  | .error e => .error e
  | .ok (cur_pos, nbits, value) =>
    if cur_pos + dti.extra > data.length then .error .endOfData
    else
      match processExtra data cur_pos nbits value dti.extra with
      | none => .error .structErr
      | some (cur_pos, nbits, value) =>
        let svalue := toSigned32 (smart_fix_signbit value nbits)
        .ok (cur_pos, value, svalue)

/-- One active-alarm entry (source: the dict `{'idx': ..., 'mask': ..., 'name': ...}`
kept in `self._state.alarms`, and equally one row of an `ALARM_TABLE`). -/
structure Alarm where
  idx : Nat
  mask : Nat
  name : String
deriving DecidableEq

/-- The `AladinTec2G.ALARM_TABLE` from the source. -/
def ALARM_TABLE : List Alarm :=
  [ ⟨0, 2, "ascent"⟩, ⟨0, 4, "bookmark"⟩ ]

/-- Model of `BaseSmartParser.alarm_name`: first matching table row's name, or
the synthetic `'alarm%d_%d'` name. -/
def alarm_name (idx mask : Nat) (alarm_table : List Alarm) : String :=
  match alarm_table.find? (fun a => a.idx == idx && a.mask == mask) with
  | some a => a.name
  | none => s!"alarm{idx}_{mask}"

/-- Clearing loop of `update_alarms`.  The source iterates
`for a in self._state.alarms` while calling `self._state.alarms.remove(a)` on
the same list; CPython's list iterator keeps an integer position `i` into the
mutated list, and `remove` deletes the first element equal to `a`.  Both
behaviours are modelled literally; `fuel` bounds the iteration count, and the
initial list length always suffices because `i` grows by one per iteration
while the list never grows, so the loop guard has failed by then. -/
def clearAlarmsLoop (idx value : Nat) (fuel : Nat) (lst : List Alarm) (i : Nat) :
    List Alarm :=
  match fuel with
  | 0 => lst
  | fuel + 1 =>
    if h : i < lst.length then
      let a := lst.get ⟨i, h⟩
      if a.idx = idx ∧ value &&& a.mask = 0 then
        clearAlarmsLoop idx value fuel (lst.erase a) (i + 1)
      else
        clearAlarmsLoop idx value fuel lst (i + 1)
    else lst

/-- Setting loop of `update_alarms` (`m = 1; while m <= value: ... m = m << 1`),
re-indexed by the exponent `k` with `m = 2 ^ k` (the source doubles `m`), and
bounded by `fuel` iterations; `value + 1` iterations always suffice, because
after `k` iterations `m = 2 ^ k > value` once `k > value`, so the guard has
failed by then and the two formulations agree. -/
def setAlarmBits (idx value : Nat) (alarm_table : List Alarm) (fuel : Nat)
    (k : Nat) (lst : List Alarm) : List Alarm :=
  match fuel with
  | 0 => lst
  | fuel + 1 =>
    if 2 ^ k ≤ value then
      let lst' := if value &&& 2 ^ k = 2 ^ k then
          lst ++ [⟨idx, 2 ^ k, alarm_name idx (2 ^ k) alarm_table⟩]
        else lst
      setAlarmBits idx value alarm_table fuel (k + 1) lst'
    else lst

/-- Model of `BaseSmartParser.update_alarms`: clear stale alarms of group
`idx`, then append an entry for every bit set in `value`. -/
def update_alarms (idx value : Nat) (alarm_table : List Alarm)
    (alarms : List Alarm) : List Alarm :=
  setAlarmBits idx value alarm_table (value + 1) 0
    (clearAlarmsLoop idx value alarms.length alarms 0)

/-- Decoder state (source: the scratch `State` object built by `init_parser`). -/
structure SmartState where
  time : Nat
  complete : Nat
  alarms : List Alarm
  cal : Int
  depth : Int
  temp : Int
  has_alarms : Bool
  has_depth : Bool
  has_temp : Bool
deriving DecidableEq

/-- Initial decoder state (source: `init_parser`). -/
def initState : SmartState :=
  ⟨0, 0, [], 0, 0, 0, false, false, false⟩

/-- One emitted profile entry (source: the dict built in `parse_dti`).  A key
absent from the dict is `none` here; the `alarms` key is only added when the
active list is non-empty, so the empty list models its absence. -/
structure Entry where
  time : Nat
  temp : Option Int
  depth : Option Int
  alarms : List String
deriving DecidableEq

/-- Emission loop at the end of `parse_dti` (`while self._state.complete > 0`),
bounded by `fuel` iterations: append one entry per pending sample, advancing
time by 4 seconds each.  The loop decrements `complete` by exactly one per
iteration, so `st.complete` iterations (as supplied by `emitEntries`) are
exactly the number the source loop performs. -/
def emitEntriesGo (st : SmartState) (profile : List Entry) (fuel : Nat) :
    SmartState × List Entry :=
  match fuel with
  | 0 => (st, profile)
  | fuel + 1 =>
    if st.complete > 0 then
      let entry : Entry :=
        { time := st.time
          temp := if st.has_temp then some st.temp else none
          depth := if st.has_depth then some (st.depth - st.cal) else none
          alarms := st.alarms.map (·.name) }
      emitEntriesGo { st with time := st.time + 4, complete := st.complete - 1 }
        (profile ++ [entry]) fuel
    else (st, profile)

/-- Emission loop of `parse_dti`, run to completion. -/
def emitEntries (st : SmartState) (profile : List Entry) :
    SmartState × List Entry :=
  emitEntriesGo st profile st.complete

/-- State update of `parse_dti` before the emission loop (the four-way branch
on the DTI's field name). -/
def parseDtiState (dti : Dti) (value : Nat) (svalue : Int)
    (alarm_table : List Alarm) (st : SmartState) : SmartState :=
  match dti.name with
  | .temp =>
    if dti.abs then { st with temp := (value : Int) * 4, has_temp := true }
    else { st with temp := st.temp + svalue * 4 }
  | .depth =>
    if dti.abs then
      let d : Int := (value : Int) * 2
      { st with depth := d, cal := if st.cal = 0 then d else st.cal,
                has_depth := true, complete := 1 }
    else { st with depth := st.depth + svalue * 2, complete := 1 }
  | .alarms => { st with alarms := update_alarms dti.idx value alarm_table st.alarms }
  | .time => { st with complete := value }

/-- Model of `BaseSmartParser.parse_dti`: update the state from one decoded
DTI record, then flush pending profile entries. -/
def parse_dti (dti : Dti) (value : Nat) (svalue : Int)
    (alarm_table : List Alarm) (st : SmartState) (profile : List Entry) :
    SmartState × List Entry :=
  emitEntries (parseDtiState dti value svalue alarm_table st) profile

/-- One decoded DTI record as handed from `process_dti` to `parse_dti`. -/
structure ProfRec where
  dti : Dti
  value : Nat
  svalue : Int

/-- Run `parse_dti` over a list of decoded records (the per-record part of the
`parse_profile` loop), from an explicit state and profile accumulator. -/
def runRecsFrom (recs : List ProfRec) (st : SmartState) (profile : List Entry) :
    SmartState × List Entry :=
  match recs with
  | [] => (st, profile)
  | r :: rs =>
    let (st', profile') := parse_dti r.dti r.value r.svalue ALARM_TABLE st profile
    runRecsFrom rs st' profile'

/-- Run a list of decoded records from the freshly initialized state. -/
def runRecs (recs : List ProfRec) : SmartState × List Entry :=
  runRecsFrom recs initState []

/-- Python list subscript `lst[i]`: non-negative indices from the front,
negative indices from the back, `none` (Python: `IndexError`) out of range. -/
def pyIndex {α : Type} (lst : List α) (i : Int) : Option α :=
  if 0 ≤ i ∧ i < (lst.length : Int) then lst[i.toNat]?
  else if -(lst.length : Int) ≤ i ∧ i < 0 then lst[(lst.length : Int) + i |>.toNat]?
  else none

/-- Loop of `BaseSmartParser.parse_profile`.  `fuel` only bounds the number of
iterations; each iteration of the source loop advances `_pos` by at least one
byte for every entry of `DTI_TABLE`, so `data.length + 1` iterations always
suffice. -/
def parseProfileLoop (data : List Nat) (pos : Nat) (st : SmartState)
    (profile : List Entry) (fuel : Nat) : Except PErr (List Entry) :=
  match fuel with
  | 0 => .error .fuelOut
  | fuel + 1 =>
    if pos < data.length then
      match smart_dti_identify data pos with
      | .error e => .error e
      | .ok idx =>
        if idx > (DTI_TABLE.length : Int) then .error .invalidDti
        else
          match pyIndex DTI_TABLE idx with
          | none => .error .indexErr
          | some dti =>
            match process_dti data pos dti with
            | .error e => .error e
            | .ok (pos', value, svalue) =>
              let (st', profile') := parse_dti dti value svalue ALARM_TABLE st profile
              parseProfileLoop data pos' st' profile' fuel
    else .ok profile

/-- Model of `BaseSmartParser.parse_profile` (with `AladinTec2G`'s tables). -/
def parse_profile (data : List Nat) : Except PErr (List Entry) :=
  parseProfileLoop data 0 initState [] (data.length + 1)

/-- Model of `BaseSmartParser.smart_ticks_to_datetime`, expressed as seconds
since the `datetime(2000, 1, 1)` epoch.  `ticks / 2` is Python 2 floor
division on ints; the `if utc_offset:` guard skips the shift when the offset
is 0 (a `None` offset behaves the same and is modelled as 0). -/
def smart_ticks_to_datetime (ticks : Nat) (utc_offset : Int) : Int :=
  let td : Int := ((ticks / 2 : Nat) : Int)
  if utc_offset ≠ 0 then td + utc_offset * 15 * 60 else td

/-- Chunked read loop of `SmartDriver.transfer` (`while num > 0`).  `recv k n`
models what the socket's `recv(n)` returns on the `k`-th call; `CHUNK_SIZE`
is 16.  The source loop has no iteration bound, so the model is indexed by
`fuel` and returns `none` exactly when the loop is still running after `fuel`
iterations: `∀ fuel, transferLoop ... = none` states that the source loop
never terminates.  (`num - len(s)` cannot go below zero in the source because
`recv` returns at most the requested byte count.) -/
def transferLoop (recv : Nat → Nat → List Nat) (k num : Nat)
    (data : List Nat) (fuel : Nat) : Option (List Nat) :=
  match fuel with
  | 0 => none
  | fuel + 1 =>
    if num > 0 then
      let s := recv k (if num > 16 then 16 else num)
      transferLoop recv (k + 1) (num - s.length) (data ++ s) fuel
    else some data

/-- Frame-splitting failures raised by `SmartDriver.transfer` (all are
`RuntimeError` in the source, distinguished by message; `structErr` models the
`struct.error` of a length-field read past the end of the buffer). -/
inductive FrameErr where
  | badMagic
  | zeroLength
  | truncated
  | structErr
deriving DecidableEq

/-- The frame marker `'\xa5\xa5\x5a\x5a'`. -/
def MAGIC : List Nat := [0xA5, 0xA5, 0x5A, 0x5A]

/-- Model of `struct.unpack_from('<L', l, off)`: 4-byte little-endian read. -/
def readLE4 (l : List Nat) (off : Nat) : Option Nat :=
  match l[off]?, l[off + 1]?, l[off + 2]?, l[off + 3]? with
  | some b0, some b1, some b2, some b3 =>
    some (b0 + 256 * (b1 + 256 * (b2 + 256 * b3)))
  | _, _, _, _ => none

/-- Frame-splitting loop at the end of `SmartDriver.transfer`.  The source
scans the buffer with an absolute offset `_pos`; the model recurses on the
un-consumed suffix `rem = data[_pos:]`, an equivalent re-indexing: the guard
`_pos < len(data) - 4` becomes `4 < rem.length`, the magic comparison
`data[_pos:_pos+4] != _hdr` becomes `rem.take 4 ≠ MAGIC`, the Python check
`_len <= 0` becomes `len = 0` (the length is unpacked as an unsigned 32-bit
value), the bound check `_pos + _len > len(data)` becomes `len > rem.length`,
the appended slice `data[_pos:_pos+_len]` becomes `rem.take len`, and
`_pos += _len` becomes dropping `len` bytes.  `fuel` bounds the iteration
count; the initial buffer length always suffices, because every iteration
drops a non-zero number of bytes, so after that many iterations the guard has
failed. -/
def splitDivesLoop (fuel : Nat) (rem : List Nat) :
    Except FrameErr (List (List Nat)) :=
  match fuel with
  | 0 => .ok []
  | fuel + 1 =>
    if 4 < rem.length then
      if rem.take 4 ≠ MAGIC then .error .badMagic
      else
        match readLE4 rem 4 with
        | none => .error .structErr
        | some len =>
          if len = 0 then .error .zeroLength
          else if len > rem.length then .error .truncated
          else
            match splitDivesLoop fuel (rem.drop len) with
            | .error e => .error e
            | .ok ds => .ok (rem.take len :: ds)
    else .ok []

/-- Frame splitting of the downloaded buffer into dive blobs (the last part of
`SmartDriver.transfer`). -/
def split_dives (data : List Nat) : Except FrameErr (List (List Nat)) :=
  splitDivesLoop data.length data

/-- Record as decoded from the absolute-depth DTI (table entry 6, prefix
`1111 110d`, type bits ignored, two extra bytes, so 16 payload bits). -/
def absDepthRec (d : Nat) : ProfRec :=
  ⟨⟨.depth, true, 0, 7, true, 2⟩, d, toSigned32 (smart_fix_signbit d 16)⟩

/-- Record as decoded from the absolute-temperature DTI (table entry 7,
prefix `1111 1110`, two extra bytes, 16 payload bits). -/
def absTempRec (t : Nat) : ProfRec :=
  ⟨⟨.temp, true, 0, 8, false, 2⟩, t, toSigned32 (smart_fix_signbit t 16)⟩

/-- Record as decoded from the delta-depth DTI (table entry 0, prefix `0`,
7 payload bits in the prefix byte). -/
def deltaDepthRec (v : Nat) : ProfRec :=
  ⟨⟨.depth, false, 0, 1, false, 0⟩, v, toSigned32 (smart_fix_signbit v 7)⟩

/-- Record as decoded from the delta-temperature DTI (table entry 1, prefix
`10`, 6 payload bits in the prefix byte). -/
def deltaTempRec (v : Nat) : ProfRec :=
  ⟨⟨.temp, false, 0, 2, false, 0⟩, v, toSigned32 (smart_fix_signbit v 6)⟩

/-- Record as decoded from the time DTI (table entry 2, prefix `110`,
5 payload bits in the prefix byte). -/
def timeRec (v : Nat) : ProfRec :=
  ⟨⟨.time, true, 0, 3, false, 0⟩, v, toSigned32 (smart_fix_signbit v 5)⟩

/-- Record as decoded from the group-0 alarms DTI (table entry 3, prefix
`1110`, 4 payload bits in the prefix byte). -/
def alarmRec (v : Nat) : ProfRec :=
  ⟨⟨.alarms, true, 0, 4, false, 0⟩, v, toSigned32 (smart_fix_signbit v 4)⟩

/-- A byte channel whose every read returns no bytes, as a closed or
non-responsive socket does. -/
def closedChannel : Nat → Nat → List Nat := fun _ _ => []

/-- C7: converting a tick count with zero UTC offset gives the epoch plus
`ticks / 2` seconds (Python 2 floor division), and a signed quarter-hour
offset `o` shifts that result by exactly `o * 900` seconds. -/
theorem c7_ticks_to_datetime (t : Nat) (o : Int) :
    smart_ticks_to_datetime t 0 = ((t / 2 : Nat) : Int) ∧
    smart_ticks_to_datetime t o = smart_ticks_to_datetime t 0 + o * 900 := by
  refine ⟨by simp [smart_ticks_to_datetime], ?_⟩
  by_cases h : o = 0
  · simp [smart_ticks_to_datetime, h]
  · simp [smart_ticks_to_datetime, h]
    ring

/-- C3: the chunked read loop of `SmartDriver.transfer` never terminates when
the channel stops yielding data before the declared byte count is reached:
with one byte still expected and every read returning zero bytes, the loop is
still running after any number of iterations (`num -= len(s)` never changes,
and no `IncompleteTransfer`-style error exists in the code). -/
theorem c3_transfer_loop_never_terminates (fuel k : Nat) (data : List Nat) :
    transferLoop closedChannel k 1 data fuel = none := by
  induction fuel generalizing k data with
  | zero => rfl
  | succ fuel ih =>
    simp only [transferLoop, closedChannel, List.length_nil, Nat.sub_zero,
      List.append_nil, gt_iff_lt, Nat.zero_lt_one, if_true]
    exact ih _ _

/-- C1: on the profile bytes `FF 80` the leading-one count is 9, which equals
`len(DTI_TABLE)`; the guard `idx > len(self.DTI_TABLE)` does not fire, and
`self.DTI_TABLE[idx]` is an out-of-range subscript (a Python `IndexError`
crash), not the claimed `UnknownDti` parse error. -/
theorem c1_dti_index_out_of_range :
    parse_profile [0xFF, 0x80] = .error .indexErr := by rfl

/-- C2 counterexample: on a buffer of sixteen `FF` bytes no 0 bit occurs
within 16 bytes, and `smart_dti_identify` returns the sentinel value `-1`
instead of failing with a parse error. -/
theorem c2_no_zero_bit_returns_sentinel :
    smart_dti_identify (List.replicate 16 0xFF) 0 = .ok (-1) := by rfl

/-- C4: `update_alarms` re-appends a bit that is already active, duplicating
its entry, and its clearing pass mutates the list while iterating it, so
after setting alarm bit 2 of group 0 twice and then clearing it, one stale
entry survives and the subsequently emitted waypoint still carries the
cleared alarm `"ascent"` — the active-alarm set is neither duplicate-free nor
cleared as the claim states. -/
theorem c4_alarm_duplicate_and_stale :
    update_alarms 0 2 ALARM_TABLE [⟨0, 2, "ascent"⟩] =
      [⟨0, 2, "ascent"⟩, ⟨0, 2, "ascent"⟩] ∧
    update_alarms 0 0 ALARM_TABLE [⟨0, 2, "ascent"⟩, ⟨0, 2, "ascent"⟩] =
      [⟨0, 2, "ascent"⟩] ∧
    (runRecs [alarmRec 2, alarmRec 2, alarmRec 0, timeRec 1]).2 =
      [⟨0, none, none, ["ascent"]⟩] := by
  refine ⟨by decide, by decide, by decide⟩

/-- Characterization of the emission loop: flushing `c` pending samples
advances the time by `4 * c`, zeroes the pending count, leaves every other
state field unchanged, and appends one entry per sample, spaced 4 seconds
apart and built from the (constant) remaining state fields. -/
theorem emitEntriesGo_eq (c : Nat) : ∀ (st : SmartState) (profile : List Entry),
    st.complete = c →
    emitEntriesGo st profile c =
      ({ st with time := st.time + 4 * c, complete := 0 },
       profile ++ (List.range c).map (fun i =>
         { time := st.time + 4 * i
           temp := if st.has_temp then some st.temp else none
           depth := if st.has_depth then some (st.depth - st.cal) else none
           alarms := st.alarms.map (·.name) })) := by
  induction c with
  | zero =>
    intro st profile h
    cases st
    simp_all [emitEntriesGo]
  | succ c ih =>
    intro st profile h
    rw [emitEntriesGo, if_pos (by omega : st.complete > 0)]
    rw [ih { st with time := st.time + 4, complete := st.complete - 1 }
          _ (by simp [h])]
    simp only [Prod.mk.injEq]
    constructor
    · simp
      omega
    · simp [List.range_succ_eq_map, List.map_map, Function.comp]
      omega

/-- The emission loop run to completion, in closed form. -/
theorem emitEntries_eq (st : SmartState) (profile : List Entry) :
    emitEntries st profile =
      ({ st with time := st.time + 4 * st.complete, complete := 0 },
       profile ++ (List.range st.complete).map (fun i =>
         { time := st.time + 4 * i
           temp := if st.has_temp then some st.temp else none
           depth := if st.has_depth then some (st.depth - st.cal) else none
           alarms := st.alarms.map (·.name) })) :=
  emitEntriesGo_eq st.complete st profile rfl

/-- C5: processing two consecutive time DTI records with values `a` then `b`
from the initial decoder state emits exactly `a + b` waypoints in total, whose
time fields are `0, 4, 8, …` — a strictly increasing sequence spaced by
exactly 4 seconds. -/
theorem c5_two_time_records (a b : Nat) :
    ((runRecs [timeRec a, timeRec b]).2).length = a + b ∧
    ((runRecs [timeRec a, timeRec b]).2).map (·.time) =
      (List.range (a + b)).map (fun i => 4 * i) := by
  have hrun : (runRecs [timeRec a, timeRec b]).2 =
      (List.range a).map (fun i =>
        ({ time := 4 * i, temp := none, depth := none, alarms := [] } : Entry)) ++
      (List.range b).map (fun i =>
        ({ time := 4 * a + 4 * i, temp := none, depth := none, alarms := [] } : Entry)) := by
    simp [runRecs, runRecsFrom, timeRec, parse_dti, parseDtiState, initState,
      emitEntries_eq]
  rw [hrun]
  constructor
  · simp
  · simp [List.map_map, Function.comp_def, List.range_add, Nat.mul_add]

/-- C8 counterexample: on the claim's own synthetic profile — one absolute
depth record, one absolute temperature record, one time record with value 1 —
the decoder emits two waypoints, not one: every depth record sets
`complete = 1` and therefore flushes a sample itself, before the temperature
record has been seen. -/
theorem c8_synthetic_profile_two_waypoints :
    (runRecs [absDepthRec 5, absTempRec 7, timeRec 1]).2 =
      [⟨0, none, some 0, []⟩, ⟨4, some 28, some 0, []⟩] ∧
    ((runRecs [absDepthRec 5, absTempRec 7, timeRec 1]).2).length ≠ 1 := by
  refine ⟨by decide, by decide⟩

/-- Calibration depth as the code actually computes it: the doubled value of
the first absolute depth record whose value is non-zero (0 when there is no
such record).  An absolute depth record with value 0 stores `cal = 0`, leaving
the calibration open for a later record to claim — this is the spec-side
description of the amended C8 claim, to be compared with `runRecs`. -/
def firstNonzeroAbsDepth : List ProfRec → Int
  | [] => 0
  | r :: rs =>
    if r.dti.name = .depth ∧ r.dti.abs = true ∧ r.value ≠ 0 then (r.value : Int) * 2
    else firstNonzeroAbsDepth rs

/-- The calibration field after running any record list from a given state:
it keeps a non-zero starting value, and otherwise takes the value of the
first non-zero absolute depth record. -/
theorem runRecsFrom_cal : ∀ (recs : List ProfRec) (st : SmartState)
    (prof : List Entry),
    (runRecsFrom recs st prof).1.cal =
      (if st.cal = 0 then firstNonzeroAbsDepth recs else st.cal) := by
  intro recs
  induction recs with
  | nil =>
    intro st prof
    by_cases h : st.cal = 0 <;> simp [runRecsFrom, firstNonzeroAbsDepth, h]
  | cons r rs ih =>
    intro st prof
    simp only [runRecsFrom, parse_dti, emitEntries_eq]
    rw [ih]
    rcases r with ⟨⟨nm, ab, idx, bits, itb, ex⟩, v, sv⟩
    cases nm <;> cases ab <;>
      by_cases hc : st.cal = 0 <;> by_cases hv : v = 0 <;>
        simp [parseDtiState, firstNonzeroAbsDepth, hc, hv, mul_eq_zero]

/-- C8 amended: the calibration depth equals the doubled value of the first
absolute depth record with a non-zero value (an absolute depth reading of 0
stores a calibration of 0, which a later non-zero absolute record then
overwrites), and the synthetic all-absolute profile — one absolute depth
record, one absolute temperature record, one time record with value 1 —
yields exactly two waypoints, both with depth 0 (the calibration subtracts
the first absolute reading from itself): the first, flushed by the depth
record itself, has no temperature; the second carries the given temperature. -/
theorem c8_amended_calibration :
    (∀ recs : List ProfRec, ((runRecs recs).1).cal = firstNonzeroAbsDepth recs) ∧
    (∀ d t : Nat, (runRecs [absDepthRec d, absTempRec t, timeRec 1]).2 =
      [⟨0, none, some 0, []⟩, ⟨4, some ((t : Int) * 4), some 0, []⟩]) := by
  constructor
  · intro recs
    rw [runRecs, runRecsFrom_cal]
    simp [initState]
  · intro d t
    simp [runRecs, runRecsFrom, absDepthRec, absTempRec, timeRec, parse_dti,
      parseDtiState, initState, emitEntries_eq, List.range_succ]

/-- Depth gating invariant: running any records among which no absolute depth
record occurs, from a state with the seen-depth flag unset and a profile with
no depth fields, leaves the flag unset and adds no depth field to any entry. -/
theorem runRecsFrom_depth_gate : ∀ (recs : List ProfRec) (st : SmartState)
    (prof : List Entry),
    (∀ r ∈ recs, ¬(r.dti.name = .depth ∧ r.dti.abs = true)) →
    st.has_depth = false →
    (∀ e ∈ prof, e.depth = none) →
    (runRecsFrom recs st prof).1.has_depth = false ∧
    ∀ e ∈ (runRecsFrom recs st prof).2, e.depth = none := by
  intro recs
  induction recs with
  | nil =>
    intro st prof _ hs hp
    exact ⟨hs, hp⟩
  | cons r rs ih =>
    intro st prof hr hs hp
    have hsd : (parseDtiState r.dti r.value r.svalue ALARM_TABLE st).has_depth
        = false := by
      have hnr := hr r (List.mem_cons_self _ _)
      rcases r with ⟨⟨nm, ab, idx, bits, itb, ex⟩, v, sv⟩
      cases nm <;> cases ab <;> simp_all [parseDtiState]
    simp only [runRecsFrom, parse_dti, emitEntries_eq]
    apply ih
    · intro x hx
      exact hr x (List.mem_cons_of_mem _ hx)
    · simpa using hsd
    · intro e he
      rcases List.mem_append.mp he with h | h
      · exact hp e h
      · rcases List.mem_map.mp h with ⟨i, _, rfl⟩
        simp [hsd]

/-- Temperature gating invariant, the analogue of `runRecsFrom_depth_gate`. -/
theorem runRecsFrom_temp_gate : ∀ (recs : List ProfRec) (st : SmartState)
    (prof : List Entry),
    (∀ r ∈ recs, ¬(r.dti.name = .temp ∧ r.dti.abs = true)) →
    st.has_temp = false →
    (∀ e ∈ prof, e.temp = none) →
    (runRecsFrom recs st prof).1.has_temp = false ∧
    ∀ e ∈ (runRecsFrom recs st prof).2, e.temp = none := by
  intro recs
  induction recs with
  | nil =>
    intro st prof _ hs hp
    exact ⟨hs, hp⟩
  | cons r rs ih =>
    intro st prof hr hs hp
    have hst : (parseDtiState r.dti r.value r.svalue ALARM_TABLE st).has_temp
        = false := by
      have hnr := hr r (List.mem_cons_self _ _)
      rcases r with ⟨⟨nm, ab, idx, bits, itb, ex⟩, v, sv⟩
      cases nm <;> cases ab <;> simp_all [parseDtiState]
    simp only [runRecsFrom, parse_dti, emitEntries_eq]
    apply ih
    · intro x hx
      exact hr x (List.mem_cons_of_mem _ hx)
    · simpa using hst
    · intro e he
      rcases List.mem_append.mp he with h | h
      · exact hp e h
      · rcases List.mem_map.mp h with ⟨i, _, rfl⟩
        simp [hst]

/-- C10: only an absolute depth record sets the seen-depth flag, so every
waypoint emitted from a profile containing no absolute depth record carries
no depth field at all — even when delta depth records have updated the
running depth and triggered the emission; likewise only an absolute
temperature record enables the temperature field. -/
theorem c10_absolute_records_gate_fields (recs : List ProfRec) :
    ((∀ r ∈ recs, ¬(r.dti.name = .depth ∧ r.dti.abs = true)) →
      ∀ e ∈ (runRecs recs).2, e.depth = none) ∧
    ((∀ r ∈ recs, ¬(r.dti.name = .temp ∧ r.dti.abs = true)) →
      ∀ e ∈ (runRecs recs).2, e.temp = none) := by
  constructor
  · intro hr
    exact (runRecsFrom_depth_gate recs initState [] hr rfl (by simp)).2
  · intro hr
    exact (runRecsFrom_temp_gate recs initState [] hr rfl (by simp)).2

/-- Witness for C10 at a concrete profile: a delta-depth record, a
delta-temperature record and a time record — the delta depth itself flushes a
sample, a non-empty profile is emitted, and no entry carries a depth or a
temperature field. -/
theorem c10_absolute_records_gate_fields_witness :
    (∀ e ∈ (runRecs [deltaDepthRec 3, deltaTempRec 2, timeRec 1]).2,
      e.depth = none) ∧
    (∀ e ∈ (runRecs [deltaDepthRec 3, deltaTempRec 2, timeRec 1]).2,
      e.temp = none) ∧
    (runRecs [deltaDepthRec 3, deltaTempRec 2, timeRec 1]).2 ≠ [] :=
  ⟨(c10_absolute_records_gate_fields _).1 (by decide),
   (c10_absolute_records_gate_fields _).2 (by decide),
   by decide⟩

/-- The sign mask of `smart_fix_signbit` factored as a shifted block: for
widths up to 32, `(0xFFFFFFFF << w) & 0xFFFFFFFF = 2^32 - 2^w`, the block of
bits `w … 31`. -/
theorem fix_signbit_mask_eq {w : Nat} (hw : w ≤ 32) :
    (0xFFFFFFFF <<< w) &&& 0xFFFFFFFF = 2 ^ 32 - 2 ^ w := by
  interval_cases w <;> decide

/-- The high block `2^32 - 2^w` is the multiple `2^w * (2^(32-w) - 1)`. -/
theorem high_mask_factor {w : Nat} (hw : w ≤ 32) :
    2 ^ 32 - 2 ^ w = 2 ^ w * (2 ^ (32 - w) - 1) := by
  rw [Nat.mul_sub_left_distrib, ← Nat.pow_add, Nat.mul_one]
  congr 2
  omega

/-- A value below `2 ^ w` shares no bits with the high mask. -/
theorem land_high_mask_eq_zero {t w : Nat} (hw : w ≤ 32) (ht : t < 2 ^ w) :
    t &&& (2 ^ 32 - 2 ^ w) = 0 := by
  apply Nat.eq_of_testBit_eq
  intro i
  rw [Nat.testBit_and, high_mask_factor hw, Nat.testBit_mul_pow_two,
    Nat.zero_testBit]
  by_cases hi : w ≤ i
  · have hfalse : t.testBit i = false :=
      Nat.testBit_lt_two_pow
        (lt_of_lt_of_le ht (Nat.pow_le_pow_right (by omega) hi))
    simp [hfalse]
  · simp [hi]

/-- Setting the disjoint high mask on a value below `2 ^ w` adds its value. -/
theorem lor_high_mask_eq_add {t w : Nat} (hw : w ≤ 32) (ht : t < 2 ^ w) :
    t ||| (2 ^ 32 - 2 ^ w) = t + (2 ^ 32 - 2 ^ w) := by
  rw [Nat.or_comm, high_mask_factor hw, ← Nat.mul_add_lt_is_or ht]
  omega

/-- A value in the upper half of its width has the sign bit set. -/
theorem land_sgnbit_of_ge {t w : Nat} (hw : 1 ≤ w) (hlo : 2 ^ (w - 1) ≤ t)
    (hhi : t < 2 ^ w) : t &&& 2 ^ (w - 1) = 2 ^ (w - 1) := by
  have h2 : 2 ^ w = 2 * 2 ^ (w - 1) := by
    rw [← pow_succ']
    congr 1
    omega
  have hdiv : t / 2 ^ (w - 1) = 1 := by
    apply Nat.div_eq_of_lt_le <;> omega
  have hbit : t.testBit (w - 1) = true := by
    rw [Nat.testBit_to_div_mod, hdiv]
    decide
  rw [Nat.and_two_pow, hbit]
  simp

/-- C6: for every bit width `w` in `[1, 32]` and every signed `v`
representable as a `w`-bit two's-complement number, sign extension —
`smart_fix_signbit` followed by the unsigned-to-signed 32-bit
reinterpretation, exactly as `process_dti` composes them — applied to the
truncation of `v` to its low `w` bits recovers `v`. -/
theorem c6_sign_extend_round_trip (w : Nat) (v : Int) (hw1 : 1 ≤ w)
    (hw2 : w ≤ 32) (hlo : -(2 ^ (w - 1) : Int) ≤ v)
    (hhi : v < 2 ^ (w - 1)) :
    toSigned32 (smart_fix_signbit (v % ((2 : Int) ^ w)).toNat w) = v := by
  have hww : ¬(w = 0 ∨ w > 32) := by omega
  have hsgn : (1 : Nat) <<< (w - 1) = 2 ^ (w - 1) := by
    simp [Nat.shiftLeft_eq]
  have hp1 : (2 : Nat) ^ w = 2 * 2 ^ (w - 1) := by
    rw [← pow_succ']
    congr 1
    omega
  have hp2 : (2 : Nat) ^ (w - 1) ≤ 2 ^ 31 := Nat.pow_le_pow_right (by omega) (by omega)
  have hp3 : (2 : Nat) ^ w ≤ 2 ^ 32 := Nat.pow_le_pow_right (by omega) hw2
  have hq1 : (2 : Int) ^ w = 2 * 2 ^ (w - 1) := by
    rw [← pow_succ']
    congr 1
    omega
  have hq2 : (0 : Int) < 2 ^ (w - 1) := pow_pos (by norm_num) _
  rcases le_or_lt 0 v with hv | hv
  · -- non-negative values: the sign bit is clear and the mask is cleared off
    have hmod : v % ((2 : Int) ^ w) = v := Int.emod_eq_of_lt hv (by omega)
    have hcast : ((v.toNat : Int)) = v := Int.toNat_of_nonneg hv
    have ht1 : v.toNat < 2 ^ (w - 1) := by
      have : (v.toNat : Int) < ((2 ^ (w - 1) : Nat) : Int) := by
        rw [hcast]
        push_cast
        exact hhi
      exact_mod_cast this
    have hne : ¬(v.toNat &&& 2 ^ (w - 1) = 2 ^ (w - 1)) := by
      have hle : v.toNat &&& 2 ^ (w - 1) ≤ v.toNat := Nat.and_le_left
      omega
    have hfix : smart_fix_signbit v.toNat w = v.toNat := by
      simp only [smart_fix_signbit, hsgn, fix_signbit_mask_eq hw2]
      rw [if_neg hww, if_neg hne,
        land_high_mask_eq_zero hw2 (by omega : v.toNat < 2 ^ w), Nat.xor_zero]
    rw [hmod, hfix, toSigned32]
    have hmod2 : v.toNat % 2 ^ 32 = v.toNat := Nat.mod_eq_of_lt (by omega)
    rw [hmod2, if_pos (by omega)]
    exact hcast
  · -- negative values: the sign bit is set and the high mask is added
    have hnn : (0 : Int) ≤ v + 2 ^ w := by omega
    have hmod : v % ((2 : Int) ^ w) = v + 2 ^ w := by
      have h1 : (v + 2 ^ w * 1) % ((2 : Int) ^ w) = v % 2 ^ w :=
        Int.add_mul_emod_self_left v (2 ^ w) 1
      rw [Int.mul_one] at h1
      rw [← h1]
      exact Int.emod_eq_of_lt hnn (by omega)
    have hcast : (((v + 2 ^ w).toNat : Int)) = v + 2 ^ w :=
      Int.toNat_of_nonneg hnn
    have htlo : 2 ^ (w - 1) ≤ (v + 2 ^ w).toNat := by
      have : ((2 ^ (w - 1) : Nat) : Int) ≤ ((v + 2 ^ w).toNat : Int) := by
        rw [hcast]
        push_cast
        omega
      exact_mod_cast this
    have hthi : (v + 2 ^ w).toNat < 2 ^ w := by
      have : ((v + 2 ^ w).toNat : Int) < ((2 ^ w : Nat) : Int) := by
        rw [hcast]
        push_cast
        omega
      exact_mod_cast this
    have hfix : smart_fix_signbit (v + 2 ^ w).toNat w =
        (v + 2 ^ w).toNat + (2 ^ 32 - 2 ^ w) := by
      simp only [smart_fix_signbit, hsgn, fix_signbit_mask_eq hw2]
      rw [if_neg hww, if_pos (land_sgnbit_of_ge hw1 htlo hthi),
        lor_high_mask_eq_add hw2 hthi]
    rw [hmod, hfix, toSigned32]
    have hx1 : (v + 2 ^ w).toNat + (2 ^ 32 - 2 ^ w) < 2 ^ 32 := by omega
    have hx2 : 2 ^ 31 ≤ (v + 2 ^ w).toNat + (2 ^ 32 - 2 ^ w) := by omega
    have hmod2 : ((v + 2 ^ w).toNat + (2 ^ 32 - 2 ^ w)) % 2 ^ 32 =
        (v + 2 ^ w).toNat + (2 ^ 32 - 2 ^ w) := Nat.mod_eq_of_lt hx1
    rw [hmod2, if_neg (by omega)]
    have hcast2 : (((v + 2 ^ w).toNat + (2 ^ 32 - 2 ^ w) : Nat) : Int) =
        (v + 2 ^ w) + ((2 : Int) ^ 32 - 2 ^ w) := by
      rw [Nat.cast_add, Nat.cast_sub hp3, hcast]
      push_cast
      ring
    rw [hcast2]
    push_cast
    ring

/-- Witness for C6 at `w = 8`, `v = -3`: truncating to 8 bits gives 253 and
sign extension recovers `-3`. -/
theorem c6_sign_extend_round_trip_witness :
    1 ≤ 8 ∧ 8 ≤ 32 ∧ -((2 : Int) ^ 7) ≤ -3 ∧ (-3 : Int) < 2 ^ 7 ∧
    toSigned32 (smart_fix_signbit ((-3 : Int) % ((2 : Int) ^ 8)).toNat 8) = -3 :=
  ⟨by decide, by decide, by decide, by decide,
   c6_sign_extend_round_trip 8 (-3) (by decide) (by decide) (by decide) (by decide)⟩

/-- Little-endian 4-byte encoding of a 32-bit length (what
`struct.pack('<L', n)` writes into a frame's length field). -/
def le4 (n : Nat) : List Nat :=
  [n % 256, n / 256 % 256, n / 65536 % 256, n / 16777216 % 256]

/-- A frame whose 4-byte length field holds `L`: magic marker, length field,
payload. -/
def mkFrameWithLen (L : Nat) (p : List Nat) : List Nat :=
  MAGIC ++ le4 L ++ p

/-- A well-formed frame for payload `p`: the length field counts the whole
frame, `8 + p.length` (magic and length field included). -/
def mkFrame (p : List Nat) : List Nat :=
  mkFrameWithLen (8 + p.length) p

/-- Reading the length field of a frame at the head of the buffer recovers
the encoded 32-bit value. -/
theorem readLE4_frame (L : Nat) (hL : L < 2 ^ 32) (q rest : List Nat) :
    readLE4 (mkFrameWithLen L q ++ rest) 4 = some L := by
  simp [mkFrameWithLen, MAGIC, le4, readLE4]
  omega

/-- The splitting loop accepts an empty buffer under any fuel. -/
theorem splitGo_nil (fuel : Nat) : splitDivesLoop fuel [] = .ok [] := by
  cases fuel <;> simp [splitDivesLoop]

/-- One iteration of the splitting loop consumes exactly one well-formed
frame at the head of the buffer. -/
theorem splitGo_frame_cons (q rest : List Nat) (fuel : Nat)
    (hq : 8 + q.length < 2 ^ 32) :
    splitDivesLoop (fuel + 1) (mkFrame q ++ rest) =
      Except.map (fun ds => mkFrame q :: ds) (splitDivesLoop fuel rest) := by
  have hlen : (mkFrame q).length = 8 + q.length := by
    simp [mkFrame, mkFrameWithLen, MAGIC, le4]
    omega
  have h4 : 4 < (mkFrame q ++ rest).length := by
    rw [List.length_append, hlen]
    omega
  have hmagic : (mkFrame q ++ rest).take 4 = MAGIC := by
    rw [mkFrame, mkFrameWithLen, List.append_assoc, List.append_assoc]
    exact List.take_left' (by rfl)
  have hread : readLE4 (mkFrame q ++ rest) 4 = some (8 + q.length) :=
    readLE4_frame (8 + q.length) hq q rest
  have hz : ¬(8 + q.length = 0) := by omega
  have ht : ¬(8 + q.length > (mkFrame q ++ rest).length) := by
    rw [List.length_append, hlen]
    omega
  have htake : (mkFrame q ++ rest).take (8 + q.length) = mkFrame q :=
    List.take_left' hlen
  have hdrop : (mkFrame q ++ rest).drop (8 + q.length) = rest :=
    List.drop_left' hlen
  rw [splitDivesLoop]
  rw [if_pos h4, if_neg (by simp [hmagic]), hread]
  simp only [hz, if_false, ht, htake, hdrop]
  cases hres : splitDivesLoop fuel rest <;> simp [hres, Except.map]

/-- Length of a frame: magic (4) + length field (4) + payload. -/
theorem mkFrameWithLen_length (L : Nat) (p : List Nat) :
    (mkFrameWithLen L p).length = 8 + p.length := by
  simp [mkFrameWithLen, MAGIC, le4]
  omega

/-- A concatenation of frames is at least 8 bytes per frame long. -/
theorem frames_length_ge (ps : List (List Nat)) :
    8 * ps.length ≤ ((ps.map mkFrame).flatten).length := by
  induction ps with
  | nil => simp
  | cons p ps ih =>
    simp only [List.map_cons, List.flatten_cons, List.length_append,
      List.length_cons]
    have h1 : (mkFrame p).length = 8 + p.length :=
      mkFrameWithLen_length (8 + p.length) p
    omega

/-- A frame whose length field exceeds the bytes that remain makes one
iteration of the splitting loop fail with the truncated-frame error. -/
theorem splitGo_truncated_head (L : Nat) (p tail : List Nat) (fuel : Nat)
    (hL : L < 2 ^ 32) (hgt : L > 8 + p.length + tail.length) :
    splitDivesLoop (fuel + 1) (mkFrameWithLen L p ++ tail) = .error .truncated := by
  have hlen : (mkFrameWithLen L p).length = 8 + p.length :=
    mkFrameWithLen_length L p
  have h4 : 4 < (mkFrameWithLen L p ++ tail).length := by
    rw [List.length_append, hlen]
    omega
  have hmagic : (mkFrameWithLen L p ++ tail).take 4 = MAGIC := by
    rw [mkFrameWithLen, List.append_assoc, List.append_assoc]
    exact List.take_left' (by rfl)
  have hread : readLE4 (mkFrameWithLen L p ++ tail) 4 = some L :=
    readLE4_frame L hL p tail
  have hz : ¬(L = 0) := by omega
  have ht : L > (mkFrameWithLen L p ++ tail).length := by
    rw [List.length_append, hlen]
    omega
  rw [splitDivesLoop]
  rw [if_pos h4, if_neg (by simp [hmagic]), hread]
  simp only [hz, if_false, ht, if_pos]

/-- Concatenating well-formed frames splits into exactly those frames, given
at least one fuel unit per frame. -/
theorem splitGo_concat (ps : List (List Nat)) : ∀ fuel, ps.length ≤ fuel →
    (∀ p ∈ ps, 8 + p.length < 2 ^ 32) →
    splitDivesLoop fuel ((ps.map mkFrame).flatten) = .ok (ps.map mkFrame) := by
  induction ps with
  | nil =>
    intro fuel _ _
    simpa using splitGo_nil fuel
  | cons p ps ih =>
    intro fuel hfuel hwf
    match fuel with
    | f + 1 =>
      have hstep := splitGo_frame_cons p ((ps.map mkFrame).flatten) f
        (hwf p (List.mem_cons_self _ _))
      simp only [List.map_cons, List.flatten_cons]
      rw [hstep, ih f (by simpa using hfuel)
        (fun q hq => hwf q (List.mem_cons_of_mem _ hq))]
      rfl

/-- A buffer of well-formed frames followed by a frame whose length field
overruns the end of the buffer splits to the truncated-frame error. -/
theorem splitGo_concat_truncated (ps : List (List Nat)) :
    ∀ (fuel L : Nat) (p tail : List Nat), ps.length + 1 ≤ fuel →
    (∀ q ∈ ps, 8 + q.length < 2 ^ 32) → L < 2 ^ 32 →
    L > 8 + p.length + tail.length →
    splitDivesLoop fuel ((ps.map mkFrame).flatten ++ (mkFrameWithLen L p ++ tail)) =
      .error .truncated := by
  induction ps with
  | nil =>
    intro fuel L p tail hfuel _ hL hgt
    match fuel with
    | f + 1 =>
      simpa using splitGo_truncated_head L p tail f hL hgt
  | cons q ps ih =>
    intro fuel L p tail hfuel hwf hL hgt
    match fuel with
    | f + 1 =>
      have hstep := splitGo_frame_cons q
        ((ps.map mkFrame).flatten ++ (mkFrameWithLen L p ++ tail)) f
        (hwf q (List.mem_cons_self _ _))
      simp only [List.map_cons, List.flatten_cons, List.append_assoc] at hstep ⊢
      rw [hstep, ih f L p tail (by simpa using hfuel)
        (fun r hr => hwf r (List.mem_cons_of_mem _ hr)) hL hgt]
      rfl

/-- C9: splitting a buffer formed by concatenating `k` well-formed frames
(magic `A5 A5 5A 5A`, 4-byte little-endian total length `8 + |payload| > 8`
covering the frame, non-empty payload) yields exactly those `k` frames,
byte-identical; and replacing any frame's length field by a value `L` that
makes `offset + L` exceed the buffer length (`L > 8 + |payload| + |rest|`)
makes splitting fail with the truncated-frame error. -/
theorem c9_frame_split :
    (∀ ps : List (List Nat), (∀ p ∈ ps, p ≠ [] ∧ 8 + p.length < 2 ^ 32) →
      split_dives ((ps.map mkFrame).flatten) = .ok (ps.map mkFrame)) ∧
    (∀ (ps : List (List Nat)) (L : Nat) (p tail : List Nat),
      (∀ q ∈ ps, q ≠ [] ∧ 8 + q.length < 2 ^ 32) → L < 2 ^ 32 →
      L > 8 + p.length + tail.length →
      split_dives ((ps.map mkFrame).flatten ++ (mkFrameWithLen L p ++ tail)) =
        .error .truncated) := by
  constructor
  · intro ps hwf
    apply splitGo_concat ps _ _ (fun p hp => (hwf p hp).2)
    have := frames_length_ge ps
    omega
  · intro ps L p tail hwf hL hgt
    have h1 := frames_length_ge ps
    have h2 : (((ps.map mkFrame).flatten ++ (mkFrameWithLen L p ++ tail))).length
        = ((ps.map mkFrame).flatten).length + (8 + p.length + tail.length) := by
      rw [List.length_append, List.length_append, mkFrameWithLen_length]
    show splitDivesLoop
      (((ps.map mkFrame).flatten ++ (mkFrameWithLen L p ++ tail))).length _ = _
    exact splitGo_concat_truncated ps _ L p tail (by omega)
      (fun q hq => (hwf q hq).2) hL hgt

/-- Witness for C9: two well-formed frames with payloads `[1]` and `[2, 3]`
split back into exactly those frames, and overwriting the second frame's
length field with 100 yields the truncated-frame error. -/
theorem c9_frame_split_witness :
    split_dives ((([[1], [2, 3]] : List (List Nat)).map mkFrame).flatten) =
      .ok ([[1], [2, 3]].map mkFrame) ∧
    split_dives (((([[1]] : List (List Nat)).map mkFrame).flatten) ++
        (mkFrameWithLen 100 [2, 3] ++ [])) = .error .truncated :=
  ⟨c9_frame_split.1 [[1], [2, 3]] (by decide),
   c9_frame_split.2 [[1]] 100 [2, 3] [] (by decide) (by decide) (by decide)⟩

/-- Bit `k` of the stream scanned by `smart_dti_identify`: bits are taken
most-significant first within each byte, starting at byte `offset` — this is
the spec-side view of the scan, to be compared with the code's nested loops. -/
def bitAt (data : List Nat) (offset k : Nat) : Bool :=
  ((data[offset + k / 8]?).getD 0).testBit (7 - k % 8)

/-- Bit `8 * i + j` of the stream is bit `7 - j` of byte `offset + i`. -/
theorem bitAt_decompose (data : List Nat) (offset i j : Nat) (hj : j < 8) :
    bitAt data offset (8 * i + j) =
      ((data[offset + i]?).getD 0).testBit (7 - j) := by
  have h1 : (8 * i + j) / 8 = i := by omega
  have h2 : (8 * i + j) % 8 = j := by omega
  rw [bitAt, h1, h2]

/-- The inner scan only shifts its result by the starting bit count. -/
theorem scanByteBits_shift (b : Nat) : ∀ (p n : Nat),
    scanByteBits b n p = Option.map (n + ·) (scanByteBits b 0 p) := by
  intro p
  induction p with
  | zero => intro n; rfl
  | succ p ih =>
    intro n
    rw [scanByteBits, scanByteBits]
    by_cases hb : b &&& (1 <<< p) = 0
    · simp [hb]
    · simp only [hb, if_false]
      rw [ih (n + 1), ih 1]
      cases scanByteBits b 0 p <;> simp
      omega

set_option maxRecDepth 4096 in
/-- Characterization of the inner scan over a full byte: it returns `none`
exactly when all 8 bits are 1, and otherwise the index (msb first) of the
first 0 bit, every earlier bit being 1. -/
theorem scanByte_char : ∀ b, b < 256 →
    (scanByteBits b 0 8 = none ∧ ∀ j, j < 8 → b.testBit (7 - j) = true) ∨
    (∃ m, m < 8 ∧ scanByteBits b 0 8 = some m ∧ b.testBit (7 - m) = false ∧
      ∀ j, j < m → b.testBit (7 - j) = true) := by decide

/-- Characterization of the byte loop of `smart_dti_identify`, for a scan
starting at byte `i` with `r` iterations left and all earlier bits equal
to 1: the loop never errors, and returns either the index of the first 0 bit
of the stream or the sentinel `-1` when all 128 scanned bits are 1. -/
theorem dtiScan_char (data : List Nat) (offset : Nat)
    (hbytes : ∀ b ∈ data, b < 256) (hlen : offset + 16 ≤ data.length) :
    ∀ (r i : Nat), r + i = 16 →
    (∀ k, k < 8 * i → bitAt data offset k = true) →
    ∃ res, dtiScanBytes data (offset + i) (8 * i) r = .ok res ∧
      ((∃ n : Nat, res = (n : Int) ∧ n < 128 ∧
        bitAt data offset n = false ∧ ∀ k, k < n → bitAt data offset k = true) ∨
       (res = -1 ∧ ∀ k, k < 128 → bitAt data offset k = true)) := by
  intro r
  induction r with
  | zero =>
    intro i hi hones
    refine ⟨-1, rfl, Or.inr ⟨rfl, ?_⟩⟩
    intro k hk
    exact hones k (by omega)
  | succ r ih =>
    intro i hi hones
    have hidx : offset + i < data.length := by omega
    have hbyte : data[offset + i]? = some data[offset + i] :=
      List.getElem?_eq_getElem hidx
    have hblt : data[offset + i] < 256 :=
      hbytes _ (List.getElem_mem hidx)
    have hshift := scanByteBits_shift data[offset + i] 8 (8 * i)
    rcases scanByte_char data[offset + i] hblt with
      ⟨hnone, hall⟩ | ⟨m, hm8, hsome, hbit0, hbits⟩
    · -- all 8 bits of this byte are 1: the loop advances to the next byte
      have hni : ∀ k, k < 8 * (i + 1) → bitAt data offset k = true := by
        intro k hk
        by_cases hlow : k < 8 * i
        · exact hones k hlow
        · have hj : k - 8 * i < 8 := by omega
          have := bitAt_decompose data offset i (k - 8 * i) hj
          rw [show 8 * i + (k - 8 * i) = k by omega] at this
          rw [this, hbyte]
          exact hall _ hj
      have hrec := ih (i + 1) (by omega) hni
      rw [show offset + (i + 1) = offset + i + 1 by omega,
        show 8 * (i + 1) = 8 * i + 8 by omega] at hrec
      rw [dtiScanBytes]
      simp only [read_ushort, hbyte, hshift, hnone, Option.map_none']
      exact hrec
    · -- the first 0 bit of the stream is bit `7 - m` of this byte
      rw [dtiScanBytes]
      simp only [read_ushort, hbyte, hshift, hsome, Option.map_some']
      refine ⟨((8 * i + m : Nat) : Int), rfl,
        Or.inl ⟨8 * i + m, rfl, by omega, ?_, ?_⟩⟩
      · rw [bitAt_decompose data offset i m (by omega), hbyte]
        exact hbit0
      · intro k hk
        by_cases hlow : k < 8 * i
        · exact hones k hlow
        · have hj : k - 8 * i < m := by omega
          have := bitAt_decompose data offset i (k - 8 * i) (by omega)
          rw [show 8 * i + (k - 8 * i) = k by omega] at this
          rw [this, hbyte]
          exact hbits _ hj

/-- C2 amended: for every byte buffer with at least 16 bytes past `offset`,
`smart_dti_identify` succeeds and returns the count of consecutive 1 bits
scanned most-significant-bit first before the first 0 bit, or the sentinel
value `-1` (not a parse error) when no 0 bit occurs within the first 16
bytes. -/
theorem c2_amended_leading_ones (data : List Nat) (offset : Nat)
    (hbytes : ∀ b ∈ data, b < 256) (hlen : offset + 16 ≤ data.length) :
    ∃ res, smart_dti_identify data offset = .ok res ∧
      ((∃ n : Nat, res = (n : Int) ∧ n < 128 ∧
        bitAt data offset n = false ∧ ∀ k, k < n → bitAt data offset k = true) ∨
       (res = -1 ∧ ∀ k, k < 128 → bitAt data offset k = true)) := by
  have h := dtiScan_char data offset hbytes hlen 16 0 (by omega) (by omega)
  rw [show offset + 0 = offset by omega] at h
  exact h

/-- Witness for C2 amended on sixteen `0xC0` bytes: the scan returns 2, the
index of the first 0 bit. -/
theorem c2_amended_leading_ones_witness :
    ∃ res, smart_dti_identify (List.replicate 16 0xC0) 0 = .ok res ∧
      ((∃ n : Nat, res = (n : Int) ∧ n < 128 ∧
        bitAt (List.replicate 16 0xC0) 0 n = false ∧
        ∀ k, k < n → bitAt (List.replicate 16 0xC0) 0 k = true) ∨
       (res = -1 ∧ ∀ k, k < 128 → bitAt (List.replicate 16 0xC0) 0 k = true)) :=
  c2_amended_leading_ones (List.replicate 16 0xC0) 0 (by decide) (by decide)
